import Mathlib

/-!
Verification of the compatibility-validation and dependency-resolution core
described by the repository's specification, together with the concrete
resource graph declared by the stack in the repository's source.

The engine itself (CapabilitySet, ResourceGraph, CompatibilityValidator,
DependencyScheduler, PlanEmitter) is not present under the repository's
source tree — only its declaration site (the stack) is — so the engine is
modelled from the specification's words; the stack's concrete graph is
translated from the source file.
-/

namespace Spec2Proof

/-- Modelled from the spec: the capability flags of §3 (named there
FixedHost, ManagedElastic, Serverless, External), standing for the source
ecosystem's Compatibility constants (EC2, MANAGED_INSTANCES, FARGATE,
EXTERNAL). The engine's code is not in the repository. -/
inductive Capability where
  | fixedHost
  | managedElastic
  | serverless
  | external
deriving DecidableEq

/-- Modelled from the spec: a CapabilitySet is an immutable finite set of
capability flags; here a list of flags. -/
abbrev CapabilitySet : Type := List Capability

/-- Modelled from the spec: intersection query of §4.1 — whether the two
capability sets share a flag. -/
def intersects (a b : CapabilitySet) : Bool :=
  List.any a (fun c => List.contains b c)

/-- Modelled from the spec: union of two capability sets (§4.1). -/
def union (a b : CapabilitySet) : CapabilitySet :=
  List.append a (List.filter (fun c => !(List.contains a c)) b)

/-- Modelled from the spec: subset query of §4.1. -/
def isSubsetOf (a b : CapabilitySet) : Bool :=
  List.all a (fun c => List.contains b c)

/-- Modelled from the spec: cpu and memory resource requirements, each
optionally declared (§3, WorkloadSpec attributes). -/
structure Resources where
  cpu : Option Nat
  memoryMiB : Option Nat
deriving DecidableEq

/-- Modelled from the spec: one execution step of a workload, with its own
optional resource sub-requirements (§3, WorkloadSpec). -/
structure ExecStep where
  name : String
  resources : Resources
deriving DecidableEq

/-- Modelled from the spec: a WorkloadSpec (§3) — identifier, explicitly
declared capability set, whole-task resource totals, and the ordered
sequence of execution steps. -/
structure WorkloadSpec where
  id : String
  capabilities : CapabilitySet
  resources : Resources
  steps : List ExecStep
deriving DecidableEq

/-- Modelled from the spec: a CapacityOffering (§3) — identifier, owning
cluster reference, capability set and weight. -/
structure CapacityOffering where
  id : String
  cluster : String
  capabilities : CapabilitySet
  weight : Nat
deriving DecidableEq

/-- Modelled from the spec: a ServiceBinding (§3) — identifier, cluster,
workload reference, the (offering identifier, weight) pairs, and the
desired running-instance count. -/
structure ServiceBinding where
  id : String
  cluster : String
  workload : String
  strategies : List (String × Nat)
  desiredCount : Nat
deriving DecidableEq

/-- Modelled from the spec: the entities a ResourceGraph owns (§3). -/
inductive Entity where
  | cluster (id : String)
  | offering (o : CapacityOffering)
  | workload (w : WorkloadSpec)
  | binding (b : ServiceBinding)
deriving DecidableEq

/-- Identifier of an entity. -/
def Entity.ident : Entity → String
  | .cluster i => i
  | .offering o => o.id
  | .workload w => w.id
  | .binding b => b.id

/-- Entity class, scoping DuplicateIdentifier per §4.2 ("in the same
entity class"). -/
def Entity.classTag : Entity → Nat
  | .cluster _ => 0
  | .offering _ => 1
  | .workload _ => 2
  | .binding _ => 3

/-- Modelled from the spec: the two dependency-edge kinds of §4.2. -/
inductive EdgeKind where
  | structural
  | ordering
deriving DecidableEq

/-- Modelled from the spec: a dependency edge; `dst` must be realized
before `src` (§4.2). -/
structure Edge where
  src : String
  dst : String
  kind : EdgeKind
deriving DecidableEq

/-- Modelled from the spec: the ResourceGraph (§3) — the declared entities
in declaration order and the dependency edges. -/
structure ResourceGraph where
  nodes : List Entity
  edges : List Edge
deriving DecidableEq

/-- Modelled from the spec: the error kinds of §7. The incompatible-source
error names the offending offering and the two non-overlapping capability
sets, the granularity error names the binding. -/
inductive ValidationError where
  | duplicateIdentifier (id : String)
  | cycleDetected
  | danglingReference (id : String)
  | incompatibleCapacitySource (offering : String) (workloadCaps offeringCaps : CapabilitySet)
  | inconsistentResourceGranularity (binding : String)
deriving DecidableEq

/-- Direct successors of a node along the dependency edges. -/
def succs (edges : List Edge) (n : String) : List String :=
  (edges.filter (fun e => e.src == n)).map Edge.dst

/-- Modelled from the spec: bounded-depth reachability over the edge list,
used by the incremental cycle check of §4.2. -/
def reachableFrom (edges : List Edge) : Nat → List String → String → Bool
  | 0, frontier, tgt => frontier.contains tgt
  | fuel+1, frontier, tgt =>
      frontier.contains tgt || reachableFrom edges fuel (frontier.flatMap (succs edges)) tgt

/-- Modelled from the spec: whether adding an edge from `f` to `t` would
create a cycle — a path from `t` back to `f` (§4.2, incremental
reachability). -/
def createsCycle (edges : List Edge) (f t : String) : Bool :=
  f == t || reachableFrom edges edges.length [t] f

/-- Identifiers of all declared entities, in declaration order. -/
def declaredIds (g : ResourceGraph) : List String := g.nodes.map Entity.ident

/-- Modelled from the spec: `addNode` of §4.2 — registers an entity, fails
with DuplicateIdentifier when the identifier already exists in the same
entity class; on failure the graph is returned unchanged (§5 atomicity). -/
def addNode (g : ResourceGraph) (e : Entity) : Option ValidationError × ResourceGraph :=
  if g.nodes.any (fun n => n.classTag == e.classTag && n.ident == e.ident) then
    (some (ValidationError.duplicateIdentifier e.ident), g)
  else
    (none, { g with nodes := g.nodes ++ [e] })

/-- Modelled from the spec: `addEdge` of §4.2 — records a dependency, fails
with CycleDetected when the new edge would create a cycle; on failure the
graph is returned unchanged (§5 atomicity). -/
def addEdge (g : ResourceGraph) (f t : String) (k : EdgeKind) :
    Option ValidationError × ResourceGraph :=
  if createsCycle g.edges f t then
    (some ValidationError.cycleDetected, g)
  else
    (none, { g with edges := g.edges ++ [{ src := f, dst := t, kind := k }] })

/-- Whether entity `n` holds a (non-owning) reference to identifier `i`:
a binding references its workload and its offerings, an offering its
cluster (§3, ownership). -/
def referencesId (n : Entity) (i : String) : Bool :=
  match n with
  | .binding b => b.workload == i || b.strategies.any (fun p => p.1 == i)
  | .offering o => o.cluster == i
  | _ => false

/-- Modelled from the spec: `removeNode` of §4.2 — fails with
DanglingReference when another node still holds a reference to the
identifier; on failure the graph is returned unchanged (§5 atomicity). -/
def removeNode (g : ResourceGraph) (i : String) : Option ValidationError × ResourceGraph :=
  if g.nodes.any (fun n => n.ident != i && referencesId n i) then
    (some (ValidationError.danglingReference i), g)
  else
    (none, { g with
      nodes := g.nodes.filter (fun n => n.ident != i),
      edges := g.edges.filter (fun e => e.src != i && e.dst != i) })

/-- Look up a declared workload by identifier. -/
def lookupWorkload (g : ResourceGraph) (i : String) : Option WorkloadSpec :=
  g.nodes.findSome? (fun n =>
    match n with
    | .workload w => if w.id == i then some w else none
    | _ => none)

/-- Look up a declared capacity offering by identifier. -/
def lookupOffering (g : ResourceGraph) (i : String) : Option CapacityOffering :=
  g.nodes.findSome? (fun n =>
    match n with
    | .offering o => if o.id == i then some o else none
    | _ => none)

/-- Whether a cluster with identifier `i` is declared. -/
def clusterDeclared (g : ResourceGraph) (i : String) : Bool :=
  g.nodes.any (fun n =>
    match n with
    | .cluster c => c == i
    | _ => false)

/-- Modelled from the spec: duplicate-identifier diagnostics aggregated by
`validate` (§6, §7). -/
def dupErrors (g : ResourceGraph) : List ValidationError :=
  ((declaredIds g).filter (fun i => 1 < (declaredIds g).count i)).map
    ValidationError.duplicateIdentifier

/-- Modelled from the spec: the dangling references held by one entity —
a binding's missing workload or offerings, an offering's missing cluster
(§3 invariants, §7). -/
def entityDanglingErrors (g : ResourceGraph) (n : Entity) : List ValidationError :=
  match n with
  | .binding b =>
      (if (lookupWorkload g b.workload).isSome then []
       else [ValidationError.danglingReference b.workload]) ++
      b.strategies.filterMap (fun p =>
        if (lookupOffering g p.1).isSome then none
        else some (ValidationError.danglingReference p.1))
  | .offering o =>
      if clusterDeclared g o.cluster then []
      else [ValidationError.danglingReference o.cluster]
  | _ => []

/-- Modelled from the spec: all dangling-reference diagnostics. -/
def danglingErrors (g : ResourceGraph) : List ValidationError :=
  g.nodes.flatMap (entityDanglingErrors g)

/-- Modelled from the spec: the CompatibilityValidator's check of one
(offering, weight) pair of a binding (§4.3) — compute
`intersects (workload.capabilities) (offering.capabilities)`; when empty,
an IncompatibleCapacitySource error naming the offending offering and the
two non-overlapping capability sets. -/
def pairError (g : ResourceGraph) (w : WorkloadSpec) (p : String × Nat) :
    Option ValidationError :=
  match lookupOffering g p.1 with
  | none => none
  | some o =>
      if intersects w.capabilities o.capabilities then none
      else some (ValidationError.incompatibleCapacitySource p.1
        w.capabilities o.capabilities)

/-- Modelled from the spec: the CompatibilityValidator's per-binding check
(§4.3) — the pair check applied to every (offering, weight) pair of the
binding. -/
def bindingCompatErrors (g : ResourceGraph) (b : ServiceBinding) : List ValidationError :=
  match lookupWorkload g b.workload with
  | none => []
  | some w => b.strategies.filterMap (pairError g w)

/-- Whether a capability set carries only the ManagedElastic flag (and is
non-empty). -/
def onlyManagedElastic (caps : CapabilitySet) : Bool :=
  !(List.isEmpty caps) && List.all caps (fun c => c == Capability.managedElastic)

/-- Modelled from the spec: workload-level resource granularity (§4.3) —
whole-task cpu and memory totals are declared and no execution step
declares per-step cpu or memory. -/
def workloadLevelResources (w : WorkloadSpec) : Bool :=
  w.resources.cpu.isSome && w.resources.memoryMiB.isSome &&
    w.steps.all (fun s => s.resources.cpu.isNone && s.resources.memoryMiB.isNone)

/-- The offerings a binding's strategies resolve to. -/
def boundOfferings (g : ResourceGraph) (b : ServiceBinding) : List CapacityOffering :=
  b.strategies.filterMap (fun p => lookupOffering g p.1)

/-- Modelled from the spec: the granularity check of §4.3 — a binding
selecting only ManagedElastic offerings requires workload-level (not
per-step) resource totals; otherwise InconsistentResourceGranularity
naming the binding. -/
def bindingGranularityErrors (g : ResourceGraph) (b : ServiceBinding) : List ValidationError :=
  match lookupWorkload g b.workload with
  | none => []
  | some w =>
      if !(List.isEmpty (boundOfferings g b)) &&
          (boundOfferings g b).all (fun o => onlyManagedElastic o.capabilities) then
        if workloadLevelResources w then []
        else [ValidationError.inconsistentResourceGranularity b.id]
      else []

/-- The service bindings declared in a graph, in declaration order. -/
def bindings (g : ResourceGraph) : List ServiceBinding :=
  g.nodes.filterMap (fun n =>
    match n with
    | .binding b => some b
    | _ => none)

/-- Whether node `n` is ready to be realized: every dependency edge out of
`n` points at an already-emitted node. -/
def ready (edges : List Edge) (emitted : List String) (n : String) : Bool :=
  (edges.filter (fun e => e.src == n)).all (fun e => emitted.contains e.dst)

/-- Modelled from the spec: the DependencyScheduler's loop (§4.4) — at each
step emit the first node, in declaration order, all of whose dependencies
are already emitted (ties broken by declaration order); `none` when no node
is ready (a cycle, the defensive re-check). -/
def topoAux (edges : List Edge) : Nat → List String → List String → Option (List String)
  | _, emitted, [] => some emitted
  | 0, _, _ :: _ => none
  | fuel+1, emitted, rem =>
      match rem.find? (ready edges emitted) with
      | none => none
      | some n => topoAux edges fuel (emitted ++ [n]) (rem.erase n)

/-- Modelled from the spec: the DependencyScheduler (§4.4) — a total order
over all graph nodes consistent with every Structural and Ordering edge,
ties broken by declaration order. -/
def dependencyScheduler (g : ResourceGraph) : Option (List String) :=
  topoAux g.edges g.nodes.length [] (declaredIds g)

/-- Modelled from the spec: the scheduler's defensive cycle re-check as a
validation diagnostic (§4.4, §7). -/
def cycleErrors (g : ResourceGraph) : List ValidationError :=
  match dependencyScheduler g with
  | some _ => []
  | none => [ValidationError.cycleDetected]

/-- Modelled from the spec: `validate` (§6) — aggregates every detected
issue (duplicates, dangling references, cycles, per-binding compatibility
and granularity) rather than stopping at the first. -/
def validate (g : ResourceGraph) : List ValidationError :=
  dupErrors g ++ danglingErrors g ++ cycleErrors g ++
    (bindings g).flatMap (fun b => bindingCompatErrors g b ++ bindingGranularityErrors g b)

/-- Modelled from the spec: one realization step (§4.5) — the entity to
realize and the already-realized dependency identifiers it may reference. -/
structure RealizationStep where
  entity : String
  deps : List String
deriving DecidableEq

/-- Modelled from the spec: the PlanEmitter (§4.5) — the ordered node
sequence turned into realization steps. -/
def emitSteps (g : ResourceGraph) (order : List String) : List RealizationStep :=
  order.map (fun n => { entity := n, deps := succs g.edges n })

/-- Modelled from the spec: the composing process's state — the graph and
whether `validate` has reported no errors on it (§6, §7). -/
structure Session where
  graph : ResourceGraph
  validated : Bool
deriving DecidableEq

/-- Modelled from the spec: the fatal failure of invoking `plan()` while
unvalidated or invalid (§7). -/
inductive PlanError where
  | planNotReady
deriving DecidableEq

/-- Modelled from the spec: the `validate()` entry point over a session —
returns the complete error list and records whether it was empty. -/
def runValidate (s : Session) : List ValidationError × Session :=
  (validate s.graph, { s with validated := (validate s.graph).isEmpty })

/-- Modelled from the spec: `plan()` (§6, §7) — callable only after
`validate()` reports no errors; otherwise it fails closed with
PlanNotReady and emits no steps. -/
def plan (s : Session) : Except PlanError (List RealizationStep) :=
  if s.validated && (validate s.graph).isEmpty then
    match dependencyScheduler s.graph with
    | some order => Except.ok (emitSteps s.graph order)
    | none => Except.error PlanError.planNotReady
  else Except.error PlanError.planNotReady

/-! The concrete graph declared by the stack constructor, translated from
the repository's stack source (the MyStack constructor): a cluster, the
ManagedInstances capacity provider attached to it, two task definitions of
compatibility FARGATE_AND_MANAGED_INSTANCES with task-level cpu/memory and
one container each, and two services bound to the provider, the second
depending on the first. -/

/-- Capability set of the source's Compatibility.FARGATE_AND_MANAGED_INSTANCES
mode, in the spec's flag names. -/
def fargateAndManagedInstances : CapabilitySet :=
  [Capability.serverless, Capability.managedElastic]

/-- The ManagedInstances capacity provider of the stack (only the
MANAGED_INSTANCES launch mode). -/
def miCapacityProvider : CapacityOffering :=
  { id := "MICapacityProvider"
    cluster := "ManagedInstancesCluster"
    capabilities := [Capability.managedElastic]
    weight := 1 }

/-- Task definition 1 of the stack: task-level cpu 1024 and memory 9500,
one container (web1) with no per-container cpu or memory. -/
def taskDef1 : WorkloadSpec :=
  { id := "TaskDef"
    capabilities := fargateAndManagedInstances
    resources := { cpu := some 1024, memoryMiB := some 9500 }
    steps := [{ name := "web1", resources := { cpu := none, memoryMiB := none } }] }

/-- Task definition 2 of the stack: task-level cpu 1024 and memory 5500,
one container (web2) with no per-container cpu or memory. -/
def taskDef2 : WorkloadSpec :=
  { id := "TaskDef2"
    capabilities := fargateAndManagedInstances
    resources := { cpu := some 1024, memoryMiB := some 5500 }
    steps := [{ name := "web2", resources := { cpu := none, memoryMiB := none } }] }

/-- Service 1 of the stack: desiredCount 2, strategy (MICapacityProvider,
weight 1), task definition TaskDef. -/
def service1 : ServiceBinding :=
  { id := "ManagedInstancesService"
    cluster := "ManagedInstancesCluster"
    workload := "TaskDef"
    strategies := [("MICapacityProvider", 1)]
    desiredCount := 2 }

/-- Service 2 of the stack: desiredCount 2, strategy (MICapacityProvider,
weight 2), task definition TaskDef2. -/
def service2 : ServiceBinding :=
  { id := "ManagedInstancesService2"
    cluster := "ManagedInstancesCluster"
    workload := "TaskDef2"
    strategies := [("MICapacityProvider", 2)]
    desiredCount := 2 }

/-- The stack's resource graph: entities in the constructor's declaration
order, structural edges for each declared reference, and the explicit
ordering edge from service 2 to service 1 (addDependency). -/
def stackGraph : ResourceGraph :=
  { nodes :=
      [ Entity.cluster ("ManagedInstancesCluster")
      , Entity.offering miCapacityProvider
      , Entity.workload taskDef1
      , Entity.workload taskDef2
      , Entity.binding service1
      , Entity.binding service2 ]
    edges :=
      [ { src := "MICapacityProvider", dst := "ManagedInstancesCluster", kind := EdgeKind.structural }
      , { src := "ManagedInstancesService", dst := "ManagedInstancesCluster", kind := EdgeKind.structural }
      , { src := "ManagedInstancesService", dst := "TaskDef", kind := EdgeKind.structural }
      , { src := "ManagedInstancesService", dst := "MICapacityProvider", kind := EdgeKind.structural }
      , { src := "ManagedInstancesService2", dst := "ManagedInstancesCluster", kind := EdgeKind.structural }
      , { src := "ManagedInstancesService2", dst := "TaskDef2", kind := EdgeKind.structural }
      , { src := "ManagedInstancesService2", dst := "MICapacityProvider", kind := EdgeKind.structural }
      , { src := "ManagedInstancesService2", dst := "ManagedInstancesService", kind := EdgeKind.ordering } ] }

/-- The stack's session after running `validate()`. -/
def stackSession : Session :=
  (runValidate { graph := stackGraph, validated := false }).2

/-- Declaration-order rank of the stack's entities, witnessing that the
stack graph is acyclic (every edge points at a lower rank). -/
def stackRank (n : String) : Nat :=
  if n == "ManagedInstancesCluster" then 0
  else if n == "MICapacityProvider" then 1
  else if n == "TaskDef" then 2
  else if n == "TaskDef2" then 3
  else if n == "ManagedInstancesService" then 4
  else 5

/-- The realization steps `plan()` emits for the stack's session. -/
def stackSteps : List RealizationStep :=
  [ { entity := "ManagedInstancesCluster", deps := [] }
  , { entity := "MICapacityProvider", deps := ["ManagedInstancesCluster"] }
  , { entity := "TaskDef", deps := [] }
  , { entity := "TaskDef2", deps := [] }
  , { entity := "ManagedInstancesService"
      deps := ["ManagedInstancesCluster", "TaskDef", "MICapacityProvider"] }
  , { entity := "ManagedInstancesService2"
      deps := ["ManagedInstancesCluster", "TaskDef2", "MICapacityProvider",
               "ManagedInstancesService"] } ]

/-! Small concrete graphs used to instantiate the general theorems. -/

/-- A two-node graph with one dependency edge, on which a reversed edge
would close a cycle. -/
def cycleDemoGraph : ResourceGraph :=
  { nodes := [Entity.cluster ("a"), Entity.cluster ("b")]
    edges := [{ src := "a", dst := "b", kind := EdgeKind.structural }] }

/-- A workload that can run only under the Serverless launch mode. -/
def w1 : WorkloadSpec :=
  { id := "w1"
    capabilities := [Capability.serverless]
    resources := { cpu := some 256, memoryMiB := some 512 }
    steps := [] }

/-- An offering that satisfies only the FixedHost launch mode. -/
def o1 : CapacityOffering :=
  { id := "o1", cluster := "c1", capabilities := [Capability.fixedHost], weight := 1 }

/-- A binding of `w1` to `o1` — capability sets with empty intersection. -/
def b1 : ServiceBinding :=
  { id := "b1", cluster := "c1", workload := "w1"
    strategies := [("o1", 1)], desiredCount := 1 }

/-- Graph exhibiting an incompatible capacity source. -/
def incompatibleGraph : ResourceGraph :=
  { nodes := [Entity.cluster ("c1"), Entity.offering o1, Entity.workload w1, Entity.binding b1]
    edges := [] }

/-- A workload mixing whole-task resource totals with a per-step cpu
declaration. -/
def w2 : WorkloadSpec :=
  { id := "w2"
    capabilities := [Capability.managedElastic]
    resources := { cpu := some 1024, memoryMiB := some 2048 }
    steps := [{ name := "s1", resources := { cpu := some 256, memoryMiB := none } }] }

/-- An offering carrying only the ManagedElastic capability. -/
def o2 : CapacityOffering :=
  { id := "o2", cluster := "c2", capabilities := [Capability.managedElastic], weight := 1 }

/-- A binding of `w2` to the only-ManagedElastic offering `o2`. -/
def b2 : ServiceBinding :=
  { id := "b2", cluster := "c2", workload := "w2"
    strategies := [("o2", 1)], desiredCount := 1 }

/-- Graph exhibiting mixed resource granularity under an
only-ManagedElastic binding. -/
def mixedGranularityGraph : ResourceGraph :=
  { nodes := [Entity.cluster ("c2"), Entity.offering o2, Entity.workload w2, Entity.binding b2]
    edges := [] }

/-- A workload declaring FixedHost and ManagedElastic capabilities. -/
def w7 : WorkloadSpec :=
  { id := "w7"
    capabilities := [Capability.fixedHost, Capability.managedElastic]
    resources := { cpu := some 1024, memoryMiB := some 2048 }
    steps := [] }

/-- An offering declaring exactly the ManagedElastic capability. -/
def o7 : CapacityOffering :=
  { id := "o7", cluster := "c7", capabilities := [Capability.managedElastic], weight := 1 }

/-- A binding of the FixedHost-or-ManagedElastic workload `w7` to the
ManagedElastic offering `o7`. -/
def b7 : ServiceBinding :=
  { id := "b7", cluster := "c7", workload := "w7"
    strategies := [("o7", 1)], desiredCount := 1 }

/-- Graph for the succeeding-example claim: workload FixedHost or
ManagedElastic bound to a ManagedElastic offering. -/
def compatibleGraph : ResourceGraph :=
  { nodes := [Entity.cluster ("c7"), Entity.offering o7, Entity.workload w7, Entity.binding b7]
    edges := [] }

/-! Helper lemmas about the scheduler loop. -/

lemma contains_iff_mem {l : List String} {a : String} : l.contains a = true ↔ a ∈ l := by
  simp [List.contains, List.elem_iff]

lemma topoAux_nil {edges : List Edge} {fuel : Nat} {emitted : List String} :
    topoAux edges fuel emitted [] = some emitted := by
  cases fuel <;> simp [topoAux]

lemma topoAux_cons {edges : List Edge} {fuel : Nat} {emitted : List String}
    {a : String} {as : List String} :
    topoAux edges (fuel + 1) emitted (a :: as) =
      match (a :: as).find? (ready edges emitted) with
      | none => none
      | some n => topoAux edges fuel (emitted ++ [n]) ((a :: as).erase n) := by
  simp [topoAux]

lemma topoAux_prefix {edges : List Edge} :
    ∀ (fuel : Nat) (emitted rem order : List String),
      topoAux edges fuel emitted rem = some order → ∃ rest, order = emitted ++ rest := by
  intro fuel
  induction fuel with
  | zero =>
      intro emitted rem order h
      cases rem with
      | nil =>
          rw [topoAux_nil] at h
          exact ⟨[], by simp [← Option.some_inj.mp h]⟩
      | cons a as => simp [topoAux] at h
  | succ n ih =>
      intro emitted rem order h
      cases rem with
      | nil =>
          rw [topoAux_nil] at h
          exact ⟨[], by simp [← Option.some_inj.mp h]⟩
      | cons a as =>
          rw [topoAux_cons] at h
          cases hf : (a :: as).find? (ready edges emitted) with
          | none => rw [hf] at h; cases h
          | some m =>
              rw [hf] at h
              obtain ⟨rest, hrest⟩ := ih (emitted ++ [m]) ((a :: as).erase m) order h
              exact ⟨m :: rest, by simp [hrest]⟩

lemma topoAux_perm {edges : List Edge} :
    ∀ (fuel : Nat) (emitted rem order : List String),
      topoAux edges fuel emitted rem = some order → order.Perm (emitted ++ rem) := by
  intro fuel
  induction fuel with
  | zero =>
      intro emitted rem order h
      cases rem with
      | nil => rw [topoAux_nil] at h; simp [← Option.some_inj.mp h]
      | cons a as => simp [topoAux] at h
  | succ n ih =>
      intro emitted rem order h
      cases rem with
      | nil => rw [topoAux_nil] at h; simp [← Option.some_inj.mp h]
      | cons a as =>
          rw [topoAux_cons] at h
          cases hf : (a :: as).find? (ready edges emitted) with
          | none => rw [hf] at h; cases h
          | some m =>
              rw [hf] at h
              have hmem : m ∈ a :: as := List.mem_of_find?_eq_some hf
              have h1 := ih (emitted ++ [m]) ((a :: as).erase m) order h
              have h2 : (emitted ++ [m]) ++ (a :: as).erase m =
                  emitted ++ (m :: (a :: as).erase m) := by simp
              rw [h2] at h1
              exact h1.trans (List.Perm.append_left emitted (List.perm_cons_erase hmem).symm)

lemma topoAux_respects {edges : List Edge} :
    ∀ (fuel : Nat) (emitted rem order : List String),
      topoAux edges fuel emitted rem = some order →
      (∀ e ∈ edges, e.src ∈ emitted → [e.dst, e.src].Sublist emitted) →
      ∀ e ∈ edges, e.src ∈ order → [e.dst, e.src].Sublist order := by
  intro fuel
  induction fuel with
  | zero =>
      intro emitted rem order h hinv
      cases rem with
      | nil => rw [topoAux_nil] at h; rw [← Option.some_inj.mp h]; exact hinv
      | cons a as => simp [topoAux] at h
  | succ n ih =>
      intro emitted rem order h hinv
      cases rem with
      | nil => rw [topoAux_nil] at h; rw [← Option.some_inj.mp h]; exact hinv
      | cons a as =>
          rw [topoAux_cons] at h
          cases hf : (a :: as).find? (ready edges emitted) with
          | none => rw [hf] at h; cases h
          | some m =>
              rw [hf] at h
              refine ih (emitted ++ [m]) ((a :: as).erase m) order h ?_
              intro e he hsrc
              rcases List.mem_append.mp hsrc with h1 | h2
              · exact (hinv e he h1).trans (List.sublist_append_left emitted [m])
              · have hsm : e.src = m := by simpa using h2
                have hready : ready edges emitted m = true := List.find?_some hf
                have hfil : e ∈ edges.filter (fun x => x.src == m) :=
                  List.mem_filter.mpr ⟨he, by simp [hsm]⟩
                have hdst : e.dst ∈ emitted := by
                  have := (List.all_eq_true.mp hready) e hfil
                  exact contains_iff_mem.mp this
                have hsub : ([e.dst] ++ [m]).Sublist (emitted ++ [m]) :=
                  List.Sublist.append (List.singleton_sublist.mpr hdst) (List.Sublist.refl [m])
                rw [hsm]
                simpa using hsub

lemma topoAux_total {edges : List Edge} (rank : String → Nat) :
    ∀ (fuel : Nat) (rem emitted : List String),
      rem.length ≤ fuel →
      (∀ x ∈ rem, ∀ e ∈ edges, e.src = x → (e.dst ∈ emitted ∨ e.dst ∈ rem)) →
      (∀ x ∈ rem, ∀ e ∈ edges, e.src = x → rank e.dst < rank x) →
      ∃ order, topoAux edges fuel emitted rem = some order := by
  intro fuel
  induction fuel with
  | zero =>
      intro rem emitted hlen _ _
      have : rem = [] := List.length_eq_zero.mp (Nat.le_zero.mp hlen)
      subst this
      exact ⟨emitted, topoAux_nil⟩
  | succ n ih =>
      intro rem emitted hlen hinv hrank
      cases rem with
      | nil => exact ⟨emitted, topoAux_nil⟩
      | cons a as =>
          cases hax : (a :: as).argmin rank with
          | none => exact absurd (List.argmin_eq_none.mp hax) (List.cons_ne_nil a as)
          | some m =>
              have hmmem : m ∈ a :: as := List.argmin_mem hax
              have hmin : ∀ b ∈ a :: as, rank m ≤ rank b := fun b hb =>
                List.le_of_mem_argmin hb hax
              have hready : ready edges emitted m = true := by
                unfold ready
                rw [List.all_eq_true]
                intro e hef
                obtain ⟨he, hsrc⟩ := List.mem_filter.mp hef
                have hsm : e.src = m := by simpa using hsrc
                have hlt := hrank m hmmem e he hsm
                rcases hinv m hmmem e he hsm with hd | hd
                · exact contains_iff_mem.mpr hd
                · exact absurd (hmin e.dst hd) (by omega)
              have hex : ∃ x ∈ a :: as, ready edges emitted x = true := ⟨m, hmmem, hready⟩
              have hsome : ((a :: as).find? (ready edges emitted)).isSome :=
                List.find?_isSome.mpr hex
              obtain ⟨m₀, hf⟩ := Option.isSome_iff_exists.mp hsome
              have hm₀ : m₀ ∈ a :: as := List.mem_of_find?_eq_some hf
              have hlen₀ : ((a :: as).erase m₀).length ≤ n := by
                rw [List.length_erase_of_mem hm₀]
                have := List.length_pos.mpr (List.cons_ne_nil a as)
                omega
              have hinv₀ : ∀ x ∈ (a :: as).erase m₀, ∀ e ∈ edges, e.src = x →
                  (e.dst ∈ emitted ++ [m₀] ∨ e.dst ∈ (a :: as).erase m₀) := by
                intro x hx e he hsx
                have hx' : x ∈ a :: as := List.mem_of_mem_erase hx
                rcases hinv x hx' e he hsx with hd | hd
                · exact Or.inl (List.mem_append_left _ hd)
                · by_cases hdm : e.dst = m₀
                  · exact Or.inl (List.mem_append_right _ (by simp [hdm]))
                  · exact Or.inr ((List.mem_erase_of_ne hdm).mpr hd)
              have hrank₀ : ∀ x ∈ (a :: as).erase m₀, ∀ e ∈ edges, e.src = x →
                  rank e.dst < rank x := fun x hx e he hsx =>
                hrank x (List.mem_of_mem_erase hx) e he hsx
              obtain ⟨order, horder⟩ := ih ((a :: as).erase m₀) (emitted ++ [m₀]) hlen₀ hinv₀ hrank₀
              refine ⟨order, ?_⟩
              rw [topoAux_cons, hf]
              exact horder

lemma topoAux_char {edges : List Edge} (ids : List String) (hids : ids.Nodup) :
    ∀ (fuel : Nat) (emitted rem order : List String),
      topoAux edges fuel emitted rem = some order →
      rem = ids.filter (fun x => !(emitted.contains x)) →
      ∀ k, emitted.length ≤ k →
        (order.drop k).head? =
          (ids.filter (fun x => !((order.take k).contains x))).find?
            (ready edges (order.take k)) := by
  intro fuel
  induction fuel with
  | zero =>
      intro emitted rem order h hrem k hk
      cases rem with
      | nil =>
          rw [topoAux_nil] at h
          rw [← Option.some_inj.mp h]
          have htk : emitted.take k = emitted := List.take_of_length_le hk
          rw [htk, ← hrem, List.find?_nil, List.head?_drop]
          exact List.getElem?_eq_none hk
      | cons a as => simp [topoAux] at h
  | succ n ih =>
      intro emitted rem order h hrem k hk
      cases rem with
      | nil =>
          rw [topoAux_nil] at h
          rw [← Option.some_inj.mp h]
          have htk : emitted.take k = emitted := List.take_of_length_le hk
          rw [htk, ← hrem, List.find?_nil, List.head?_drop]
          exact List.getElem?_eq_none hk
      | cons a as =>
          rw [topoAux_cons] at h
          cases hf : (a :: as).find? (ready edges emitted) with
          | none => rw [hf] at h; cases h
          | some m =>
              rw [hf] at h
              have hrem' : (a :: as).erase m =
                  ids.filter (fun x => !((emitted ++ [m]).contains x)) := by
                have hnd : (a :: as).Nodup := by
                  rw [hrem]; exact List.Nodup.filter _ hids
                rw [List.Nodup.erase_eq_filter hnd, hrem, List.filter_filter]
                refine List.filter_congr ?_
                intro x _
                by_cases hxm : x = m <;> simp [hxm]
              rcases Nat.lt_or_ge k (emitted.length + 1) with hk1 | hk1
              · have hkE : k = emitted.length := by omega
                subst hkE
                obtain ⟨rest, hrest⟩ := topoAux_prefix n (emitted ++ [m]) _ order h
                rw [List.append_assoc] at hrest
                have htk : order.take emitted.length = emitted := by
                  rw [hrest]; exact List.take_left emitted _
                have hdr : order.drop emitted.length = m :: rest := by
                  rw [hrest]; exact List.drop_left emitted _
                rw [htk, hdr, ← hrem, hf]
                rfl
              · exact ih (emitted ++ [m]) ((a :: as).erase m) order h hrem' k
                  (by simpa using hk1)

lemma scheduler_perm {g : ResourceGraph} {order : List String}
    (h : dependencyScheduler g = some order) : order.Perm (declaredIds g) :=
  topoAux_perm g.nodes.length [] (declaredIds g) order h

lemma scheduler_respects {g : ResourceGraph} {order : List String}
    (h : dependencyScheduler g = some order) :
    ∀ e ∈ g.edges, e.src ∈ order → [e.dst, e.src].Sublist order :=
  topoAux_respects g.nodes.length [] (declaredIds g) order h
    (fun _ _ hmem => absurd hmem (List.not_mem_nil _))

lemma scheduler_char {g : ResourceGraph} {order : List String}
    (hids : (declaredIds g).Nodup) (h : dependencyScheduler g = some order) :
    ∀ k, (order.drop k).head? =
      ((declaredIds g).filter (fun x => !((order.take k).contains x))).find?
        (ready g.edges (order.take k)) := by
  intro k
  exact topoAux_char (declaredIds g) hids g.nodes.length [] (declaredIds g) order h
    (by simp) k (Nat.zero_le k)

lemma scheduler_total {g : ResourceGraph} (rank : String → Nat)
    (hdecl : ∀ e ∈ g.edges, e.src ∈ declaredIds g → e.dst ∈ declaredIds g)
    (hrank : ∀ e ∈ g.edges, e.src ∈ declaredIds g → rank e.dst < rank e.src) :
    ∃ order, dependencyScheduler g = some order := by
  have hlen : (declaredIds g).length ≤ g.nodes.length := by
    simp [declaredIds]
  exact topoAux_total rank g.nodes.length (declaredIds g) [] hlen
    (fun x hx e he hsx => Or.inr (hdecl e he (hsx ▸ hx)))
    (fun x hx e he hsx => hsx ▸ hrank e he (hsx ▸ hx))

lemma mem_bindings {g : ResourceGraph} {b : ServiceBinding} :
    b ∈ bindings g ↔ Entity.binding b ∈ g.nodes := by
  constructor
  · intro h
    obtain ⟨n, hn, hf⟩ := List.mem_filterMap.mp h
    cases n with
    | binding b₀ => simp at hf; rw [← hf]; exact hn
    | cluster i => simp at hf
    | offering o => simp at hf
    | workload w => simp at hf
  · intro h
    exact List.mem_filterMap.mpr ⟨Entity.binding b, h, rfl⟩

lemma compat_error_mem_validate {g : ResourceGraph} {b : ServiceBinding}
    {err : ValidationError} (hb : Entity.binding b ∈ g.nodes)
    (he : err ∈ bindingCompatErrors g b) : err ∈ validate g := by
  unfold validate
  refine List.mem_append_right _ ?_
  exact List.mem_flatMap.mpr ⟨b, mem_bindings.mpr hb, List.mem_append_left _ he⟩

lemma granularity_error_mem_validate {g : ResourceGraph} {b : ServiceBinding}
    {err : ValidationError} (hb : Entity.binding b ∈ g.nodes)
    (he : err ∈ bindingGranularityErrors g b) : err ∈ validate g := by
  unfold validate
  refine List.mem_append_right _ ?_
  exact List.mem_flatMap.mpr ⟨b, mem_bindings.mpr hb, List.mem_append_right _ he⟩

lemma validate_nil_scheduler {g : ResourceGraph} (h : validate g = []) :
    ∃ order, dependencyScheduler g = some order := by
  unfold validate at h
  rw [List.append_eq_nil, List.append_eq_nil, List.append_eq_nil] at h
  have hc : cycleErrors g = [] := h.1.2
  unfold cycleErrors at hc
  cases hs : dependencyScheduler g with
  | some order => exact ⟨order, rfl⟩
  | none => rw [hs] at hc; cases hc

lemma pairError_ne_none_iff {g : ResourceGraph} {w : WorkloadSpec} {p : String × Nat} :
    pairError g w p ≠ none ↔
      ∃ o, lookupOffering g p.1 = some o ∧
        intersects w.capabilities o.capabilities = false := by
  unfold pairError
  cases h : lookupOffering g p.1 with
  | none => simp
  | some o => by_cases hi : intersects w.capabilities o.capabilities <;> simp [hi]

lemma pairError_eq_some_iff {g : ResourceGraph} {w : WorkloadSpec} {p : String × Nat}
    {err : ValidationError} :
    pairError g w p = some err ↔
      ∃ o, lookupOffering g p.1 = some o ∧
        intersects w.capabilities o.capabilities = false ∧
        err = ValidationError.incompatibleCapacitySource p.1 w.capabilities o.capabilities := by
  unfold pairError
  cases h : lookupOffering g p.1 with
  | none => simp
  | some o =>
      by_cases hi : intersects w.capabilities o.capabilities = true
      · simp [hi]
      · simp [hi]
        exact eq_comm

lemma emitSteps_map_entity (g : ResourceGraph) (order : List String) :
    (emitSteps g order).map RealizationStep.entity = order := by
  simp [emitSteps, List.map_map]
  exact List.map_id order

lemma plan_ok_elim {s : Session} {steps : List RealizationStep}
    (h : plan s = Except.ok steps) :
    s.validated = true ∧ validate s.graph = [] ∧
    ∃ order, dependencyScheduler s.graph = some order ∧ steps = emitSteps s.graph order := by
  unfold plan at h
  by_cases h1 : (s.validated && (validate s.graph).isEmpty) = true
  · rw [if_pos h1] at h
    cases hs : dependencyScheduler s.graph with
    | none => rw [hs] at h; cases h
    | some order =>
        rw [hs] at h
        rw [Bool.and_eq_true] at h1
        have hand := h1
        exact ⟨hand.1, List.isEmpty_iff.mp hand.2, order, rfl, (Except.ok.inj h).symm⟩
  · rw [if_neg h1] at h; cases h

/-! The claims. -/

/-- C5: for every graph and every addEdge call whose new edge would create
a cycle, the call fails with CycleDetected and returns the graph unchanged;
more generally every addNode/addEdge call either fully succeeds with its
mutation applied or fails leaving the graph unchanged. -/
theorem graph_mutation_atomic (g : ResourceGraph) (f t : String) (k : EdgeKind) (e : Entity) :
    (createsCycle g.edges f t = true →
      addEdge g f t k = (some ValidationError.cycleDetected, g)) ∧
    (∀ err, (addEdge g f t k).1 = some err →
      err = ValidationError.cycleDetected ∧ (addEdge g f t k).2 = g) ∧
    ((addEdge g f t k).1 = none →
      (addEdge g f t k).2 = { g with edges := g.edges ++ [{ src := f, dst := t, kind := k }] }) ∧
    (∀ err, (addNode g e).1 = some err → (addNode g e).2 = g) ∧
    ((addNode g e).1 = none →
      (addNode g e).2 = { g with nodes := g.nodes ++ [e] }) := by
  refine ⟨?_, ?_, ?_, ?_, ?_⟩
  · intro h
    simp [addEdge, h]
  · intro err h
    by_cases hc : createsCycle g.edges f t = true
    · simp [addEdge, hc] at h ⊢
      exact h.symm
    · simp [addEdge, hc] at h
  · intro h
    by_cases hc : createsCycle g.edges f t = true
    · simp [addEdge, hc] at h
    · simp [addEdge, hc]
  · intro err h
    by_cases hd : (g.nodes.any (fun n => n.classTag == e.classTag && n.ident == e.ident)) = true
    · simp [addNode, hd]
    · simp [addNode, hd] at h
  · intro h
    by_cases hd : (g.nodes.any (fun n => n.classTag == e.classTag && n.ident == e.ident)) = true
    · simp [addNode, hd] at h
    · simp [addNode, hd]

/-- C5 witness: on the two-node demo graph the reversed edge closes a
cycle, so addEdge fails with CycleDetected and returns the graph
unchanged. -/
theorem graph_mutation_atomic_witness :
    addEdge cycleDemoGraph ("b") ("a") EdgeKind.ordering =
      (some ValidationError.cycleDetected, cycleDemoGraph) :=
  (graph_mutation_atomic cycleDemoGraph ("b") ("a") EdgeKind.ordering
    (Entity.cluster ("a"))).1 (by decide)

/-- C6: plan() invoked on an unvalidated session, or on one whose graph
validate() reports at least one error for, fails with PlanNotReady and
emits no realization steps; plan() succeeds exactly when the session is
validated and validate() reports no errors. -/
theorem plan_fails_closed (s : Session) :
    (s.validated = false → plan s = Except.error PlanError.planNotReady) ∧
    (validate s.graph ≠ [] → plan s = Except.error PlanError.planNotReady) ∧
    (∀ steps, plan s = Except.ok steps → s.validated = true ∧ validate s.graph = []) ∧
    (s.validated = true → validate s.graph = [] → ∃ steps, plan s = Except.ok steps) := by
  refine ⟨?_, ?_, ?_, ?_⟩
  · intro h
    simp [plan, h]
  · intro h
    have hie : (validate s.graph).isEmpty = false := by
      cases hv : validate s.graph with
      | nil => exact absurd hv h
      | cons x xs => simp
    simp [plan, hie]
  · intro steps h
    have h1 := plan_ok_elim h
    exact ⟨h1.1, h1.2.1⟩
  · intro h1 h2
    obtain ⟨order, horder⟩ := validate_nil_scheduler h2
    exact ⟨emitSteps s.graph order, by simp [plan, h1, h2, horder]⟩

/-- C6 witness: the stack's graph before `validate()` has been run: plan
fails closed with PlanNotReady; after `validate()` reports no errors, plan
succeeds. -/
theorem plan_fails_closed_witness :
    plan { graph := stackGraph, validated := false } = Except.error PlanError.planNotReady ∧
    ∃ steps, plan stackSession = Except.ok steps :=
  ⟨(plan_fails_closed { graph := stackGraph, validated := false }).1 rfl,
   (plan_fails_closed stackSession).2.2.2 (by decide) (by decide)⟩

/-- C7: a workload whose capability set is exactly FixedHost and
ManagedElastic, bound to an offering whose capability set is exactly
ManagedElastic, passes validation: the capability sets intersect and
validate() reports no error at all. -/
theorem compatible_binding_succeeds :
    w7.capabilities = [Capability.fixedHost, Capability.managedElastic] ∧
    o7.capabilities = [Capability.managedElastic] ∧
    intersects w7.capabilities o7.capabilities = true ∧
    validate compatibleGraph = [] := by decide

/-- C8: removeNode applied to a CapacityOffering that is still referenced
by a ServiceBinding of the graph fails with DanglingReference and returns
the graph unchanged. -/
theorem removeNode_dangling (g : ResourceGraph) (o : CapacityOffering) (b : ServiceBinding)
    (ho : Entity.offering o ∈ g.nodes) (hb : Entity.binding b ∈ g.nodes)
    (href : b.strategies.any (fun p => p.1 == o.id) = true)
    (hne : b.id ≠ o.id) :
    removeNode g o.id = (some (ValidationError.danglingReference o.id), g) := by
  have h1 : ((Entity.binding b).ident != o.id) = true := bne_iff_ne.mpr hne
  have h2 : referencesId (Entity.binding b) o.id = true := by
    show (b.workload == o.id || b.strategies.any (fun p => p.1 == o.id)) = true
    rw [Bool.or_eq_true]
    exact Or.inr href
  have hcond : g.nodes.any (fun n => n.ident != o.id && referencesId n o.id) = true :=
    List.any_eq_true.mpr ⟨Entity.binding b, hb, by rw [Bool.and_eq_true]; exact ⟨h1, h2⟩⟩
  simp [removeNode, hcond]

/-- C8 witness: removing the stack's capacity provider, still referenced
by the stack's first service, fails with DanglingReference and returns the
graph unchanged. -/
theorem removeNode_dangling_witness :
    removeNode stackGraph miCapacityProvider.id =
      (some (ValidationError.danglingReference miCapacityProvider.id), stackGraph) :=
  removeNode_dangling stackGraph miCapacityProvider service1
    (by decide) (by decide) (by decide) (by decide)

/-- C1: for a service binding of the graph whose workload resolves, the
compatibility check reports IncompatibleCapacitySource iff some bound
(offering, weight) pair resolves to an offering whose capability set has
empty intersection with the workload's; every such error surfaces in
validate() and names the offending offering together with the two
non-overlapping capability sets. -/
theorem validate_incompatible_iff (g : ResourceGraph) (b : ServiceBinding) (w : WorkloadSpec)
    (hb : Entity.binding b ∈ g.nodes) (hw : lookupWorkload g b.workload = some w) :
    (bindingCompatErrors g b ≠ [] ↔
      ∃ p ∈ b.strategies, ∃ o, lookupOffering g p.1 = some o ∧
        intersects w.capabilities o.capabilities = false) ∧
    (∀ p ∈ b.strategies, ∀ o, lookupOffering g p.1 = some o →
      intersects w.capabilities o.capabilities = false →
      ValidationError.incompatibleCapacitySource p.1 w.capabilities o.capabilities ∈
        validate g) ∧
    (∀ err ∈ bindingCompatErrors g b, ∃ p ∈ b.strategies, ∃ o,
      lookupOffering g p.1 = some o ∧ intersects w.capabilities o.capabilities = false ∧
      err = ValidationError.incompatibleCapacitySource p.1 w.capabilities o.capabilities) := by
  have hbce : bindingCompatErrors g b = b.strategies.filterMap (pairError g w) := by
    unfold bindingCompatErrors
    rw [hw]
  refine ⟨?_, ?_, ?_⟩
  · rw [hbce]
    constructor
    · intro hne
      rw [Ne, List.filterMap_eq_nil_iff] at hne
      push_neg at hne
      obtain ⟨p, hp, hpe⟩ := hne
      obtain ⟨o, ho, hio⟩ := pairError_ne_none_iff.mp hpe
      exact ⟨p, hp, o, ho, hio⟩
    · rintro ⟨p, hp, o, ho, hio⟩
      rw [Ne, List.filterMap_eq_nil_iff]
      push_neg
      exact ⟨p, hp, pairError_ne_none_iff.mpr ⟨o, ho, hio⟩⟩
  · intro p hp o ho hio
    have hmem : ValidationError.incompatibleCapacitySource p.1 w.capabilities o.capabilities ∈
        bindingCompatErrors g b := by
      rw [hbce]
      exact List.mem_filterMap.mpr ⟨p, hp, pairError_eq_some_iff.mpr ⟨o, ho, hio, rfl⟩⟩
    exact compat_error_mem_validate hb hmem
  · intro err herr
    rw [hbce] at herr
    obtain ⟨p, hp, hpe⟩ := List.mem_filterMap.mp herr
    obtain ⟨o, ho, hio, heq⟩ := pairError_eq_some_iff.mp hpe
    exact ⟨p, hp, o, ho, hio, heq⟩

/-- C1 witness: the general theorem instantiated at the concrete graph
whose workload (Serverless only) is bound to an offering (FixedHost only)
with disjoint capability sets. -/
theorem validate_incompatible_iff_witness :
    (bindingCompatErrors incompatibleGraph b1 ≠ [] ↔
      ∃ p ∈ b1.strategies, ∃ o, lookupOffering incompatibleGraph p.1 = some o ∧
        intersects w1.capabilities o.capabilities = false) ∧
    (∀ p ∈ b1.strategies, ∀ o, lookupOffering incompatibleGraph p.1 = some o →
      intersects w1.capabilities o.capabilities = false →
      ValidationError.incompatibleCapacitySource p.1 w1.capabilities o.capabilities ∈
        validate incompatibleGraph) ∧
    (∀ err ∈ bindingCompatErrors incompatibleGraph b1, ∃ p ∈ b1.strategies, ∃ o,
      lookupOffering incompatibleGraph p.1 = some o ∧
      intersects w1.capabilities o.capabilities = false ∧
      err = ValidationError.incompatibleCapacitySource p.1 w1.capabilities o.capabilities) :=
  validate_incompatible_iff incompatibleGraph b1 w1 (by decide) (by decide)

/-- C2: for a binding of the graph whose workload resolves and whose
resolved offerings all carry only the ManagedElastic capability, any
per-step cpu or memory declaration makes validate() report
InconsistentResourceGranularity naming the binding, while purely
workload-level declarations keep the granularity check silent. -/
theorem granularity_requires_workload_level (g : ResourceGraph) (b : ServiceBinding)
    (w : WorkloadSpec) (hb : Entity.binding b ∈ g.nodes)
    (hw : lookupWorkload g b.workload = some w)
    (hoff : (boundOfferings g b).isEmpty = false)
    (hme : (boundOfferings g b).all (fun o => onlyManagedElastic o.capabilities) = true) :
    (∀ s ∈ w.steps, (s.resources.cpu.isSome = true ∨ s.resources.memoryMiB.isSome = true) →
      ValidationError.inconsistentResourceGranularity b.id ∈ validate g) ∧
    (workloadLevelResources w = true → bindingGranularityErrors g b = []) := by
  have hbge : bindingGranularityErrors g b =
      (if workloadLevelResources w then []
       else [ValidationError.inconsistentResourceGranularity b.id]) := by
    unfold bindingGranularityErrors
    rw [hw]
    simp [hoff, hme]
  refine ⟨?_, ?_⟩
  · intro s hs hres
    have hall : (w.steps.all
        (fun s => s.resources.cpu.isNone && s.resources.memoryMiB.isNone)) = false := by
      rw [List.all_eq_false]
      refine ⟨s, hs, ?_⟩
      intro hcontra
      rw [Bool.and_eq_true] at hcontra
      rcases hres with h | h
      · have h1 := hcontra.1
        rw [Option.isNone_iff_eq_none] at h1
        rw [h1] at h
        simp at h
      · have h2 := hcontra.2
        rw [Option.isNone_iff_eq_none] at h2
        rw [h2] at h
        simp at h
    have hwl : workloadLevelResources w = false := by
      unfold workloadLevelResources
      rw [hall]
      simp
    have hmem : ValidationError.inconsistentResourceGranularity b.id ∈
        bindingGranularityErrors g b := by
      rw [hbge, hwl]
      simp
    exact granularity_error_mem_validate hb hmem
  · intro hwl
    rw [hbge, hwl]
    simp

/-- C2 witness: the general theorem instantiated at the concrete graph
whose workload mixes whole-task totals with a per-step cpu declaration
under an only-ManagedElastic offering; the mixed declaration is reported. -/
theorem granularity_requires_workload_level_witness :
    ValidationError.inconsistentResourceGranularity b2.id ∈ validate mixedGranularityGraph :=
  (granularity_requires_workload_level mixedGranularityGraph b2 w2
      (by decide) (by decide) (by decide) (by decide)).1
    { name := "s1", resources := { cpu := some 256, memoryMiB := none } }
    (by decide) (Or.inl (by decide))

/-- C3: for every graph with distinct identifiers whose edges stay inside
the declared nodes and admit a rank function (acyclicity), the scheduler
returns an order that is a permutation of all nodes, places the target of
every edge before its source, at each position emits the first declared
node (declaration order breaking ties) among those whose dependencies are
already emitted, and is invariant under re-computation. -/
theorem dependencyScheduler_correct (g : ResourceGraph) (rank : String → Nat)
    (hnodup : (declaredIds g).Nodup)
    (hdecl : ∀ e ∈ g.edges, e.src ∈ declaredIds g → e.dst ∈ declaredIds g)
    (hrank : ∀ e ∈ g.edges, e.src ∈ declaredIds g → rank e.dst < rank e.src) :
    ∃ order, dependencyScheduler g = some order ∧
      order.Perm (declaredIds g) ∧
      (∀ e ∈ g.edges, e.src ∈ order → [e.dst, e.src].Sublist order) ∧
      (∀ k, (order.drop k).head? =
        ((declaredIds g).filter (fun x => !((order.take k).contains x))).find?
          (ready g.edges (order.take k))) ∧
      dependencyScheduler g = dependencyScheduler g := by
  obtain ⟨order, horder⟩ := scheduler_total rank hdecl hrank
  exact ⟨order, horder, scheduler_perm horder, scheduler_respects horder,
    scheduler_char hnodup horder, rfl⟩

/-- C3 witness: the general theorem instantiated at the stack's graph with
its declaration-order rank function. -/
theorem dependencyScheduler_correct_witness :
    ∃ order, dependencyScheduler stackGraph = some order ∧
      order.Perm (declaredIds stackGraph) ∧
      (∀ e ∈ stackGraph.edges, e.src ∈ order → [e.dst, e.src].Sublist order) ∧
      (∀ k, (order.drop k).head? =
        ((declaredIds stackGraph).filter (fun x => !((order.take k).contains x))).find?
          (ready stackGraph.edges (order.take k))) ∧
      dependencyScheduler stackGraph = dependencyScheduler stackGraph :=
  dependencyScheduler_correct stackGraph stackRank (by decide) (by decide) (by decide)

/-- C4: whenever a graph holds two service bindings with an explicit
Ordering edge from the second to the first, every successfully computed
plan places the first binding's step before the second's, whatever the
other nodes of the graph are. -/
theorem orderingEdge_before (s : Session) (a b : ServiceBinding)
    (steps : List RealizationStep)
    (ha : Entity.binding a ∈ s.graph.nodes) (hb : Entity.binding b ∈ s.graph.nodes)
    (hedge : ({ src := b.id, dst := a.id, kind := EdgeKind.ordering } : Edge) ∈ s.graph.edges)
    (hok : plan s = Except.ok steps) :
    [a.id, b.id].Sublist (steps.map RealizationStep.entity) := by
  obtain ⟨-, -, order, horder, hsteps⟩ := plan_ok_elim hok
  have hbid : b.id ∈ order := by
    have hmem : b.id ∈ declaredIds s.graph :=
      List.mem_map.mpr ⟨Entity.binding b, hb, rfl⟩
    exact ((scheduler_perm horder).mem_iff).mpr hmem
  have hsub := scheduler_respects horder _ hedge hbid
  rw [hsteps, emitSteps_map_entity]
  exact hsub

/-- C4 witness: in the stack's plan the first service precedes the second,
which depends on it through the explicit ordering edge. -/
theorem orderingEdge_before_witness :
    [service1.id, service2.id].Sublist (stackSteps.map RealizationStep.entity) :=
  orderingEdge_before stackSession service1 service2 stackSteps
    (by decide) (by decide) (by decide) rfl

/-- C9: in the stack's graph the capacity provider is declared (attached to
its cluster) before either service referencing it, and in the computed plan
the provider's realization step precedes both services' steps. -/
theorem stack_offering_precedes_services :
    plan stackSession = Except.ok stackSteps ∧
    (declaredIds stackGraph).indexOf miCapacityProvider.id <
      (declaredIds stackGraph).indexOf service1.id ∧
    (declaredIds stackGraph).indexOf miCapacityProvider.id <
      (declaredIds stackGraph).indexOf service2.id ∧
    [miCapacityProvider.id, service1.id].Sublist (stackSteps.map RealizationStep.entity) ∧
    [miCapacityProvider.id, service2.id].Sublist (stackSteps.map RealizationStep.entity) :=
  ⟨rfl, by decide, by decide, by decide, by decide⟩

/-- C10: neither container of the stack's two task definitions declares a
per-step cpu or memory requirement, and both task definitions declare
whole-task totals, so each workload's resource granularity is uniform and
workload-level. -/
theorem stack_uniform_granularity :
    (taskDef1.steps ++ taskDef2.steps).all
      (fun s => s.resources.cpu.isNone && s.resources.memoryMiB.isNone) = true ∧
    taskDef1.resources.cpu.isSome = true ∧ taskDef1.resources.memoryMiB.isSome = true ∧
    taskDef2.resources.cpu.isSome = true ∧ taskDef2.resources.memoryMiB.isSome = true ∧
    workloadLevelResources taskDef1 = true ∧ workloadLevelResources taskDef2 = true := by
  decide

end Spec2Proof
